import Mathlib

/-!
Verification of the `consoler` gated-logging facade (src/consoler/index.ts).

The TypeScript class `Consoler` is shallowly embedded here:
* JS strings are modelled as `List Char` (`Str`), restricted to the ASCII
  fragment the library manipulates (`String.prototype.toUpperCase` is
  modelled as the `a..z ↦ A..Z` table, identity elsewhere).
* `localStorage` is the `store : Option Str` field of the state; `null`/absent
  is `none`.
* Every observable action (localStorage write, `prompt`, `alert`,
  `console.groupCollapsed` group, callback invocation, `location.reload`,
  `console.log`) is recorded as an `Effect`; model functions return the list
  of effects the corresponding TypeScript method performs, in order.
* `String.prototype.match` is modelled by a small regex engine that is
  faithful to JavaScript on the fragment the library can build from its
  inputs: top-level alternation `|`, grouping parentheses (which are
  zero-width for matching), the wildcard `.`, exact single-digit repetition
  quantifiers on single-character atoms (expanded by `expandQuant`), and
  literal characters.  Theorems that quantify over category or tag names
  carry side conditions keeping the names inside this fragment.
* The tag registry object built by `reduce` and enumerated by `Object.keys`
  is modelled by `objInsert` (last-write-wins, position retained) and
  `objKeys` (array-index-like keys first, ascending, then insertion
  order).
-/

set_option maxRecDepth 4000

namespace Consoler

/-- JS strings, as lists of characters. -/
abbrev Str := List Char

/-- Coerce a Lean string literal into the model's string type. -/
def strL (s : String) : Str := s.data

/-- Model of `Char` uppercasing as performed by `String.prototype.toUpperCase`
on the ASCII fragment: `a..z` map to `A..Z`, everything else is unchanged. -/
def upChar (c : Char) : Char :=
  match c with
  | 'a' => 'A' | 'b' => 'B' | 'c' => 'C' | 'd' => 'D' | 'e' => 'E'
  | 'f' => 'F' | 'g' => 'G' | 'h' => 'H' | 'i' => 'I' | 'j' => 'J'
  | 'k' => 'K' | 'l' => 'L' | 'm' => 'M' | 'n' => 'N' | 'o' => 'O'
  | 'p' => 'P' | 'q' => 'Q' | 'r' => 'R' | 's' => 'S' | 't' => 'T'
  | 'u' => 'U' | 'v' => 'V' | 'w' => 'W' | 'x' => 'X' | 'y' => 'Y'
  | 'z' => 'Z'
  | other => other

/-- Model of `String.prototype.toUpperCase`. -/
def upStr (s : Str) : Str := s.map upChar

/-- Model of `String.prototype.split(sep)` for a one-character separator
(as used with `","` by the library). -/
def splitOnChar (sep : Char) : Str → List Str
  | [] => [[]]
  | c :: cs =>
    if c = sep then [] :: splitOnChar sep cs
    else
      match splitOnChar sep cs with
      | [] => [[c]]
      | p :: ps => (c :: p) :: ps

/-- Model of `Array.prototype.join(",")` (also `Array.prototype.toString`). -/
def joinComma : List Str → Str
  | [] => []
  | [w] => w
  | w :: ws => w ++ ',' :: joinComma (ws)

/-- Model of `String.prototype.replace(",", "")`: removes the first `,`
(if any) and leaves the rest of the string unchanged. -/
def replaceFirstComma : Str → Str
  | [] => []
  | c :: cs => if c = ',' then cs else c :: replaceFirstComma cs

/-- `p` is a prefix of `s` (executable). -/
def isPrefSeq : Str → Str → Bool
  | [], _ => true
  | _ :: _, [] => false
  | c :: cs, d :: ds => c = d && isPrefSeq cs ds

/-- `p` occurs in `s` as a contiguous literal substring (executable). -/
def containsSeq (p : Str) : Str → Bool
  | [] => isPrefSeq p []
  | c :: cs => isPrefSeq p (c :: cs) || containsSeq p cs

/-! ## The regex-engine fragment

The library converts strings to regexes in two places:
`localverbose.match(refinedValue)` in `_searchInLocalVerbose` and
`mode?.match(new RegExp(regStr, "g"))` in `_getVerboseMode`.  The patterns it
builds consist of literal characters, the wildcard `.`, grouping parentheses
and top-level alternation, so the engine below models exactly that fragment:
a pattern string is split on `|` into alternatives; inside an alternative,
`(` and `)` are zero-width, `.` matches any character, and every other
character matches itself. -/

/-- One pattern character against one subject character (`.` is a wildcard). -/
def charMatches (p c : Char) : Bool := p = '.' || p = c

/-- Match one alternative at the start of the subject; returns the number of
subject characters consumed.  `(` and `)` are zero-width (they only group);
alternatives are preprocessed by `expandQuant`, so the remaining characters
are literals (or the `.` wildcard). -/
def altMatchLen : Str → Str → Option Nat
  | [], _ => some 0
  | p :: ps, s =>
    if p = '(' || p = ')' then altMatchLen ps s
    else
      match s with
      | [] => none
      | c :: cs => if charMatches p c then (altMatchLen ps cs).map (· + 1) else none

/-- Preprocessing of one alternative: an exact single-digit repetition
quantifier on a non-group atom (brace, digit, brace — as in `A\x7b2\x7d`,
i.e. JavaScript `/A\x7b2\x7d/`) is expanded into that many copies of the
atom, which is exactly its JavaScript matching semantics; everything else is
kept verbatim and later matched literally by `altMatchLen`.  (JavaScript's
remaining metacharacters — `\\ ^ $ ? * + [ ]`, multi-digit or range
quantifiers, and quantified groups — are outside the modelled fragment;
theorems that quantify over categories or tag names carry side conditions
excluding them.) -/
def expandQuant : Str → Str
  | [] => []
  | p :: b1 :: d :: b2 :: ps2 =>
    if b1 = '\x7b' && b2 = '\x7d' && ('0' ≤ d && d ≤ '9') && !(p = '(' || p = ')') then
      List.replicate (d.toNat - 48) p ++ expandQuant ps2
    else p :: expandQuant (b1 :: d :: b2 :: ps2)
  | p :: ps => p :: expandQuant ps

/-- Try the alternatives in order at the start of the subject (JavaScript
alternation prefers the leftmost alternative that matches). -/
def tryAlts (alts : List Str) (s : Str) : Option Nat :=
  match alts with
  | [] => none
  | a :: rest =>
    match altMatchLen a s with
    | some n => some n
    | none => tryAlts rest s

/-- `regex.test`-like search: does some alternative match at some position?
This models the truthiness of `subject.match(pattern)` without the `g` flag. -/
def testFrom (alts : List Str) : Str → Bool
  | [] => (tryAlts alts []).isSome
  | c :: cs => (tryAlts alts (c :: cs)).isSome || testFrom alts cs

/-- Global matching (`match` with the `g` flag): scan left to right, at each
position take the leftmost alternative that matches, record the matched text,
and continue after it (advancing one position on failure or an empty match).
Fuelled for termination; `globalMatchA` supplies enough fuel to finish. -/
def globalMatchAuxF : Nat → List Str → Str → List Str
  | 0, _, _ => []
  | _ + 1, alts, [] => match tryAlts alts [] with
    | some _ => [[]]
    | none => []
  | fuel + 1, alts, c :: cs =>
    match tryAlts alts (c :: cs) with
    | some 0 => [] :: globalMatchAuxF fuel alts cs
    | some (n + 1) =>
      (c :: cs).take (n + 1) :: globalMatchAuxF fuel alts ((c :: cs).drop (n + 1))
    | none => globalMatchAuxF fuel alts cs

/-- All matches of the alternatives in the subject, in order. The JavaScript
`subject.match(re)` result `null` corresponds to the empty list. -/
def globalMatchA (alts : List Str) (s : Str) : List Str :=
  globalMatchAuxF (s.length + 1) alts s

/-- `subject.match(new RegExp(pat, "g"))` for patterns in the fragment: the
pattern splits into alternatives at `|`, each alternative's repetition
quantifiers are expanded, and the subject is scanned globally. -/
def globalMatch (pat s : Str) : List Str :=
  globalMatchA ((splitOnChar '|' pat).map expandQuant) s

/-- Truthiness of `subject.match(pat)` (pattern given as a string, no flags),
for patterns in the fragment. -/
def regexTest (pat s : Str) : Bool :=
  testFrom ((splitOnChar '|' pat).map expandQuant) s

/-! ## VerbosityStore -/

/-- `_getLocalVerbose`: reads `localStorage.getItem("verbose")`; a missing key
or an empty string (both falsy in JS) yield `none`, otherwise the stored
string is uppercased. -/
def getLocalVerbose (store : Option Str) : Option Str :=
  match store with
  | none => none
  | some s => if s = [] then none else some (upStr s)

/-- `_searchInLocalVerbose(value)`: uppercases the stored string (via
`_getLocalVerbose`) and the query, then evaluates the truthiness of
`localverbose.match(refinedValue)` — a regex match, not a literal substring
test.  Absent (or empty) persisted state yields `false`. -/
def searchInLocalVerbose (store : Option Str) (value : Str) : Bool :=
  match getLocalVerbose store with
  | some lv => regexTest (upStr value) lv
  | none => false

/-! ## Tags and construction parameters -/

/-- A caller-declared tag (`IVerboseTag`): display name and colour. -/
structure Tag where
  displayName : Str
  color : Str
deriving DecidableEq

/-- Modelled from the spec: the `isHex` validator is imported from
`src/consoler/helper`, which is not among the repository sources; spec §6
specifies it as a hex-colour validator accepting an optional `#` followed by
exactly 3 or 6 hexadecimal digits. -/
def isHexDigit (c : Char) : Bool :=
  ('0' ≤ c && c ≤ '9') || ('a' ≤ c && c ≤ 'f') || ('A' ≤ c && c ≤ 'F')

/-- Modelled from the spec: `#?` + 3 or 6 hex digits (see `isHexDigit`). -/
def isHex (s : Str) : Bool :=
  let t := match s with
    | '#' :: r => r
    | _ => s
  (t.length = 3 || t.length = 6) && t.all isHexDigit

/-- Constructor parameters (`IConsolerParams`).  The optional callback is
modelled by its presence (`hasCallback`); its observable invocations are
recorded as `Effect.callback`. -/
structure ConsolerParams where
  password : Str
  defaultDeveloperMode : List Str
  tags : Option (List Tag)
  hasCallback : Bool
deriving DecidableEq

/-! ## Observable effects and the facade state -/

/-- One observable side effect of the embedded code, in execution order:
* `storeWrite v` — `localStorage.setItem("verbose", v)`;
* `promptCall` — a blocking `prompt(...)` call;
* `alertCall m` — `alert(m)`;
* `display color identifier message` — one collapsed display-sink group
  (`console.groupCollapsed` … `console.groupEnd`, including the trace line);
* `callback category message` — one invocation of the configured callback;
* `reload` — `window.location.reload()`;
* `consoleLog m` — a plain diagnostic `console.log`;
* `triggerInstall` — assignment of the global `window.verbose` trigger. -/
inductive Effect where
  | storeWrite (value : Str)
  | promptCall
  | alertCall (message : Str)
  | display (color identifier message : Str)
  | callback (category message : Str)
  | reload
  | consoleLog (message : Str)
  | triggerInstall
deriving DecidableEq

/-- The mutable state of a `Consoler` instance together with the external
`localStorage` entry it reads and writes (`store`).  `tags` is the validated
name-to-colour registry built by `_getTagsObject` (`none` when the `tags`
parameter was absent). -/
structure ConsolerState where
  password : Str
  store : Option Str
  isDevelopment : Bool
  isDebugModeEnable : Bool
  verboseMode : List Str
  tags : Option (List (Str × Str))
  hasCallback : Bool
deriving DecidableEq

/-! ## Dispatch -/

/-- `_log`: emits one collapsed display group (label, message, trace line) —
but every `console` call in `_log` is additionally guarded by
`isDebugModeEnable`. -/
def logCore (isDebug : Bool) (color identifier message : Str) : List Effect :=
  if isDebug then [.display color identifier message] else []

/-- `_taglog`: the dispatch path shared by all tag functions.  Gated on
`_searchInLocalVerbose(identifier.toUpperCase())`; when the gate passes it
emits the display group (via `_log`, with the `consoler:` label prefix) and
invokes the callback, if configured, with `(identifier.toUpperCase(),
message)` — the extra parameters are not forwarded to the callback. -/
def taglog (st : ConsolerState) (color identifier message : Str) : List Effect :=
  let tag := searchInLocalVerbose st.store (upStr identifier)
  (if tag then logCore st.isDebugModeEnable color (strL "consoler:" ++ identifier) message
   else [])
  ++ (if tag && st.hasCallback then [.callback (upStr identifier) message] else [])

/-- Public `log`: gate on `INFO`, display with colour `#03a9f4`, callback
`("INFO", message)`. -/
def log (st : ConsolerState) (message : Str) : List Effect :=
  let info := searchInLocalVerbose st.store (strL "INFO")
  (if info then logCore st.isDebugModeEnable (strL "#03a9f4") (strL "consoler:INFO") message
   else [])
  ++ (if info && st.hasCallback then [.callback (strL "INFO") message] else [])

/-- Public `warn`: gate on `WARN`, colour `#ffc107`. -/
def warn (st : ConsolerState) (message : Str) : List Effect :=
  let w := searchInLocalVerbose st.store (strL "WARN")
  (if w then logCore st.isDebugModeEnable (strL "#ffc107") (strL "consoler:WARN") message
   else [])
  ++ (if w && st.hasCallback then [.callback (strL "WARN") message] else [])

/-- Public `error`: gate on `ERROR`, colour `#f55656`. -/
def error (st : ConsolerState) (message : Str) : List Effect :=
  let e := searchInLocalVerbose st.store (strL "ERROR")
  (if e then logCore st.isDebugModeEnable (strL "#f55656") (strL "consoler:ERROR") message
   else [])
  ++ (if e && st.hasCallback then [.callback (strL "ERROR") message] else [])

/-- Public `success`: gate on `SUCCESS`, colour `#19c720`. -/
def success (st : ConsolerState) (message : Str) : List Effect :=
  let s := searchInLocalVerbose st.store (strL "SUCCESS")
  (if s then logCore st.isDebugModeEnable (strL "#19c720") (strL "consoler:SUCCESS") message
   else [])
  ++ (if s && st.hasCallback then [.callback (strL "SUCCESS") message] else [])

/-! ## Construction -/

/-- `_setLocalVerbose`: persists `verboseMode.join(",")` verbatim (no
uppercasing happens on the write path) and flips `isDebugModeEnable`. -/
def setLocalVerbose (st : ConsolerState) : ConsolerState × List Effect :=
  ({ st with store := some (joinComma st.verboseMode), isDebugModeEnable := true },
   [.storeWrite (joinComma st.verboseMode)])

/-- `_addDefaultValue`: auto-seed — write the current `verboseMode` (still
`defaultDeveloperMode` during construction) iff no persisted value was found
and the environment is development. -/
def addDefaultValue (st : ConsolerState) : ConsolerState × List Effect :=
  if !st.isDebugModeEnable && st.isDevelopment then setLocalVerbose st else (st, [])

/-- The `tags.map(...)` step of `_getTagsObject`: validate every tag's colour
(throwing `"Tag Color in not Hex"` at the first invalid one, which aborts the
whole construction) and collect the name/colour pairs in tag order. -/
def validateTags : List Tag → Except Str (List (Str × Str))
  | [] => .ok []
  | t :: ts =>
    if isHex t.color then (validateTags ts).map ((t.displayName, t.color) :: ·)
    else .error (strL "Tag Color in not Hex")

/-- JavaScript object insertion (the spread-and-assign step of the `reduce`):
an existing key keeps its position and gets the new value (last-write-wins),
a new key is appended. -/
def objInsert (m : List (Str × Str)) (k v : Str) : List (Str × Str) :=
  if m.any (fun p => p.1 = k) then m.map (fun p => if p.1 = k then (k, v) else p)
  else m ++ [(k, v)]

/-- `_getTagsObject`: `tags.map` (validation) followed by the
`reduce((a, v) => spread-and-assign, \x7b\x7d)` building the registry object;
the resulting association list has unique keys, in JS object property
order. -/
def getTagsObject (ts : List Tag) : Except Str (List (Str × Str)) :=
  (validateTags ts).map (fun l => l.foldl (fun m p => objInsert m p.1 p.2) [])

/-- Numeric value of a digit string (for the array-index key test). -/
def keyToNat (s : Str) : Nat := s.foldl (fun a c => a * 10 + (c.toNat - 48)) 0

/-- Is the key a canonical array-index string (`"0"`, or digits without a
leading zero, with value below 2^32 - 1)?  Such keys are enumerated first by
`Object.keys`. -/
def isArrayIndex (s : Str) : Bool :=
  (match s with
   | [] => false
   | ['0'] => true
   | c :: cs => ('1' ≤ c && c ≤ '9') && cs.all (fun d => '0' ≤ d && d ≤ '9'))
  && keyToNat s < 4294967295

/-- Insertion into a list sorted by ascending numeric value. -/
def insertByNat (x : Str) : List Str → List Str
  | [] => [x]
  | y :: ys => if keyToNat x ≤ keyToNat y then x :: y :: ys else y :: insertByNat x ys

/-- Insertion sort by ascending numeric value. -/
def sortByNat : List Str → List Str
  | [] => []
  | x :: xs => insertByNat x (sortByNat xs)

/-- `Object.keys` of the registry object: array-index keys first, in
ascending numeric order, then the remaining keys in insertion order.  (The
registry built by `getTagsObject` has unique keys.) -/
def objKeys (m : List (Str × Str)) : List Str :=
  sortByNat ((m.map Prod.fst).filter isArrayIndex)
    ++ (m.map Prod.fst).filter (fun k => !isArrayIndex k)

/-- Field initialisation plus `_setDefaultOptions` (everything the constructor
does before processing the `tags` parameter): install the global trigger,
log the availability message, run `_addDefaultValue`, and — when debug mode is
enabled — re-read `verboseMode` from the store and announce it via
`success(...)`.  (The TypeScript code would crash with a `TypeError` if debug
mode were enabled while the store read back absent; that requires writing a
`defaultDeveloperMode` that joins to the empty string, outside the modelled
fragment, so the read-back is totalised with `[]`.) -/
def constructCore (isDev : Bool) (store0 : Option Str) (p : ConsolerParams) :
    ConsolerState × List Effect :=
  let st0 : ConsolerState :=
    { password := p.password, store := store0, isDevelopment := isDev,
      isDebugModeEnable := (getLocalVerbose store0).isSome,
      verboseMode := p.defaultDeveloperMode, tags := none,
      hasCallback := p.hasCallback }
  let e0 : List Effect := [.triggerInstall, .consoleLog (strL "verbose now accessable!")]
  let (st1, e1) := addDefaultValue st0
  if st1.isDebugModeEnable then
    let vm := ((getLocalVerbose st1.store).map (splitOnChar ',')).getD []
    let st2 := { st1 with verboseMode := vm }
    (st2, e0 ++ e1 ++ success st2 (strL "Now you can see : ("))
  else (st1, e0 ++ e1)

/-- The constructor: `constructCore`, then — when the `tags` parameter is
present — `_getTagsObject`.  A tag with an invalid colour makes the whole
construction fail (`Except.error`); the effects performed before the throw
are still reported. -/
def construct (isDev : Bool) (store0 : Option Str) (p : ConsolerParams) :
    Except Str ConsolerState × List Effect :=
  let (st, eff) := constructCore isDev store0 p
  match p.tags with
  | none => (.ok st, eff)
  | some ts =>
    match getTagsObject ts with
    | .ok m => (.ok { st with tags := some m }, eff)
    | .error e => (.error e, eff)

/-! ## The configuration flow (`window.verbose`) -/

/-- `_getRegex`, at the string level: the static alternation
`(INFO)|(WARN)|(SUCCESS)|(ERROR)` and, when tag names are registered, the
appended `tagsNames.map(name => "|(" + NAME + ")").toString().replace(",", "")`
— an array `toString` (comma join) from which only the first comma is
removed. -/
def staticRegStr : Str := strL "(INFO)|(WARN)|(SUCCESS)|(ERROR)"

/-- See `staticRegStr`; this is the pattern string handed to
`new RegExp(·, "g")`. -/
def getRegexStr (tagsNames : Option (List Str)) : Str :=
  match tagsNames with
  | none => staticRegStr
  | some names =>
    staticRegStr ++
      replaceFirstComma (joinComma (names.map fun n => strL "|(" ++ upStr n ++ strL ")"))

/-- The alert text of `_getVerboseMode`. -/
def wrongVerboseMsg : Str := strL "Wrong Verbose Mode!"

/-- `_getVerboseMode`: prompt for free text (`input`, `none` when the operator
cancels), uppercase it, run the global regex built by `_getRegex` over it
(tag names are `Object.keys` of the registry object, via `objKeys` — the
`_getPromptMessage` step), and either commit the matches into
`verboseMode` (returning `true`) or alert `"Wrong Verbose Mode!"` (returning
`false`, state unchanged).  A `null` match result and a cancelled prompt are
both falsy in the JS condition. -/
def getVerboseMode (st : ConsolerState) (input : Option Str) :
    ConsolerState × Bool × List Effect :=
  let tagsNames := st.tags.map objKeys
  let regStr := getRegexStr tagsNames
  match input with
  | none => (st, false, [.promptCall, .alertCall wrongVerboseMsg])
  | some i =>
    match globalMatch regStr (upStr i) with
    | [] => (st, false, [.promptCall, .alertCall wrongVerboseMsg])
    | v :: vs => ({ st with verboseMode := v :: vs }, true, [.promptCall])

/-- `_autorizeDeveloper`: in a development environment, `true` with no
interaction; otherwise one `prompt` for the password, a diagnostic
`console.log` of the entered value, and exact string comparison (a cancelled
prompt compares unequal). -/
def autorizeDeveloper (st : ConsolerState) (passInput : Option Str) :
    Bool × List Effect :=
  if st.isDevelopment then (true, [])
  else (decide (passInput = some st.password),
        [.promptCall, .consoleLog (passInput.getD [])])

/-- `_setVerboseAndReload`: `_setLocalVerbose` followed by a full reload. -/
def setVerboseAndReload (st : ConsolerState) : ConsolerState × List Effect :=
  let (st1, e1) := setLocalVerbose st
  (st1, e1 ++ [.reload])

/-- `_verbose` — the configuration flow behind the global trigger:
authorize, then prompt for a verbosity set and either commit-and-reload or
alert, per `_getVerboseMode`. -/
def verboseFlow (st : ConsolerState) (passInput modeInput : Option Str) :
    ConsolerState × List Effect :=
  let (ok, e1) := autorizeDeveloper st passInput
  if ok then
    let (st1, ok2, e2) := getVerboseMode st modeInput
    if ok2 then
      let (st2, e3) := setVerboseAndReload st1
      (st2, e1 ++ [.consoleLog (strL "Authorized")] ++ e2 ++ e3)
    else (st1, e1 ++ [.consoleLog (strL "Authorized")] ++ e2)
  else (st, e1 ++ [.consoleLog (strL "Not Authorized")])

/-! ## Spec-side definitions (for refinement claims) -/

/-- The extraction step as the spec describes it: all substrings of the
uppercased input matching the alternation of the built-in category names plus
every registered tag name (uppercased; escaping is the identity on the plain
names considered here), as one global regex. -/
def specExtractCategories (tagsNames : List Str) (input : Str) : List Str :=
  globalMatchA
    ([strL "INFO", strL "WARN", strL "SUCCESS", strL "ERROR"] ++ tagsNames.map upStr)
    (upStr input)

/-- The alternatives of `staticRegStr`. -/
def builtinAlts : List Str :=
  [strL "(INFO)", strL "(WARN)", strL "(SUCCESS)", strL "(ERROR)"]

/-- A tag name as the parenthesised alternative `(NAME)`. -/
def plainAlt (n : Str) : Str := '(' :: upStr n ++ strL ")"

/-- A tag name as the comma-carrying alternative `(NAME),` left behind by
`replace(",", "")` removing only the first comma. -/
def commaAlt (n : Str) : Str := plainAlt n ++ strL ","

/-- The alternatives contributed by the second and later tag names: every one
except the last carries a mandatory trailing comma. -/
def tagAltsMid : List Str → List Str
  | [] => []
  | [n] => [plainAlt n]
  | n :: ns => commaAlt n :: tagAltsMid ns

/-- The alternatives actually contributed by the registered tag names: the
first is clean (its separating comma is the one `replace` removes), the
middle ones carry trailing commas, the last is clean. -/
def tagAlts : List Str → List Str
  | [] => []
  | n :: ns => plainAlt n :: tagAltsMid ns

/-- Characters allowed in the category/tag names our regex fragment covers:
ASCII letters and digits (no regex metacharacters, no `,`, no `|`). -/
def plainChar (c : Char) : Bool :=
  ('A' ≤ c && c ≤ 'Z') || ('a' ≤ c && c ≤ 'z') || ('0' ≤ c && c ≤ '9')

/-- A usable tag name: nonempty and made of `plainChar`s. -/
def goodName (n : Str) : Prop := n ≠ [] ∧ ∀ c ∈ n, plainChar c = true

instance goodName.instDecidable (n : Str) : Decidable (goodName n) := by
  unfold goodName
  exact instDecidableAnd

/-- The JavaScript regular-expression metacharacters.  A pattern string free
of all of them is matched purely literally by `String.prototype.match`, which
is the fragment in which `searchInLocalVerbose` coincides with a literal
substring search. -/
def regexMeta (c : Char) : Bool :=
  c = '\\' || c = '^' || c = '$' || c = '.' || c = '|' || c = '?' || c = '*'
    || c = '+' || c = '(' || c = ')' || c = '[' || c = ']' || c = '\x7b' || c = '\x7d'

/-- The piece `"|(" + NAME + ")"` contributed to the pattern by one tag. -/
def pieceStr (n : Str) : Str := '|' :: plainAlt n

/-- The pattern text after the first `|(NAME)` piece once the first comma is
gone: `(N₁),|(N₂),|…|(Nₖ)` (used to characterise `getRegexStr`). -/
def chainStr : List Str → Str
  | [] => []
  | [n] => plainAlt n
  | n :: ns => plainAlt n ++ ',' :: '|' :: chainStr ns

/-! ## Helper lemmas: uppercasing -/

theorem upChar_cases (c : Char) : upChar c = c ∨ ('A' ≤ upChar c ∧ upChar c ≤ 'Z') := by
  unfold upChar
  split <;> simp_all

theorem upChar_of_upper (c : Char) (h1 : 'A' ≤ c) (h2 : c ≤ 'Z') : upChar c = c := by
  unfold upChar
  split <;> first | rfl | (revert h1 h2; decide)

theorem upChar_upChar (c : Char) : upChar (upChar c) = upChar c := by
  rcases upChar_cases c with h | ⟨h1, h2⟩
  · rw [h]; exact h
  · exact upChar_of_upper _ h1 h2

theorem upStr_upStr (s : Str) : upStr (upStr s) = upStr s := by
  simp only [upStr, List.map_map]
  exact List.map_congr_left fun c _ => upChar_upChar c

theorem plainChar_upChar (c : Char) (h : plainChar c = true) : plainChar (upChar c) = true := by
  unfold upChar
  split <;> first | exact h | decide

/-! ## Helper lemmas: splitting -/

theorem splitOnChar_of_noSep (sep : Char) (l : Str) (h : ∀ c ∈ l, c ≠ sep) :
    splitOnChar sep l = [l] := by
  induction l with
  | nil => rfl
  | cons c cs ih =>
    have hc : c ≠ sep := h c (List.mem_cons_self c cs)
    have hih := ih (fun d hd => h d (List.mem_cons_of_mem c hd))
    simp [splitOnChar, hc, hih]

theorem splitOnChar_append_sep (sep : Char) (a r : Str) (h : ∀ c ∈ a, c ≠ sep) :
    splitOnChar sep (a ++ sep :: r) = a :: splitOnChar sep r := by
  induction a with
  | nil => simp [splitOnChar]
  | cons c cs ih =>
    have hc : c ≠ sep := h c (List.mem_cons_self c cs)
    have hih := ih (fun d hd => h d (List.mem_cons_of_mem c hd))
    simp [splitOnChar, hc, hih]

/-! ## Helper lemmas: a literal substring makes the regex search succeed -/

theorem expandQuant_cons (c : Char) (cs : Str) (h : cs.head? ≠ some '\x7b') :
    expandQuant (c :: cs) = c :: expandQuant cs := by
  rcases cs with _ | ⟨b1, rest⟩
  · rfl
  · rcases rest with _ | ⟨d, rest2⟩
    · rfl
    · rcases rest2 with _ | ⟨b2, ps2⟩
      · rfl
      · have hb1 : b1 ≠ '\x7b' := by simpa using h
        simp [expandQuant, hb1]

theorem expandQuant_of_noBrace (p : Str) (h : '\x7b' ∉ p) : expandQuant p = p := by
  induction p with
  | nil => rfl
  | cons c cs ih =>
    have hcs : '\x7b' ∉ cs := fun hm => h (List.mem_cons_of_mem _ hm)
    have hhead : cs.head? ≠ some '\x7b' := by
      intro hx
      rcases cs with _ | ⟨x, xs⟩
      · simp at hx
      · simp only [List.head?, Option.some.injEq] at hx
        subst hx
        exact hcs (List.mem_cons_self _ _)
    rw [expandQuant_cons c cs hhead, ih hcs]

theorem map_expandQuant_eq_self (l : List Str) (h : ∀ a ∈ l, '\x7b' ∉ a) :
    l.map expandQuant = l :=
  (List.map_congr_left fun a ha => expandQuant_of_noBrace a (h a ha)).trans (List.map_id l)

theorem altMatchLen_isSome_of_pref (p s : Str) (hp : ∀ c ∈ p, c ≠ '(' ∧ c ≠ ')')
    (h : isPrefSeq p s = true) : (altMatchLen p s).isSome = true := by
  induction p generalizing s with
  | nil => simp [altMatchLen]
  | cons c cs ih =>
    rcases s with _ | ⟨d, ds⟩
    · simp [isPrefSeq] at h
    · have hc := hp c (List.mem_cons_self c cs)
      simp only [isPrefSeq, Bool.and_eq_true, decide_eq_true_eq] at h
      obtain ⟨rfl, hrest⟩ := h
      have hih := ih ds (fun x hx => hp x (List.mem_cons_of_mem c hx)) hrest
      simp [altMatchLen, hc.1, hc.2, charMatches, Option.isSome_map]
      rcases hM : altMatchLen cs ds with _ | n
      · rw [hM] at hih; simp at hih
      · simp

theorem testFrom_single_of_contains (p s : Str) (hp : ∀ c ∈ p, c ≠ '(' ∧ c ≠ ')')
    (h : containsSeq p s = true) : testFrom [p] s = true := by
  induction s with
  | nil =>
    simp only [containsSeq] at h
    simp only [testFrom, tryAlts]
    have hS := altMatchLen_isSome_of_pref p [] hp h
    rcases hM : altMatchLen p [] with _ | n
    · rw [hM] at hS; simp at hS
    · simp
  | cons c cs ih =>
    simp only [containsSeq, Bool.or_eq_true] at h
    rcases h with h | h
    · have hS := altMatchLen_isSome_of_pref p (c :: cs) hp h
      simp only [testFrom, Bool.or_eq_true]
      left
      rcases hM : altMatchLen p (c :: cs) with _ | n
      · rw [hM] at hS; simp at hS
      · simp [tryAlts, hM]
    · simp only [testFrom, Bool.or_eq_true]
      right
      exact ih h

theorem search_true_of_contains (store : Option Str) (v C : Str)
    (hv : getLocalVerbose store = some v)
    (hplain : ∀ c ∈ upStr C, c ≠ '|' ∧ c ≠ '(' ∧ c ≠ ')' ∧ c ≠ '\x7b')
    (hsub : containsSeq (upStr C) v = true) :
    searchInLocalVerbose store (upStr C) = true := by
  simp only [searchInLocalVerbose, hv, regexTest]
  rw [upStr_upStr, splitOnChar_of_noSep '|' (upStr C) (fun c hc => (hplain c hc).1)]
  rw [show ([upStr C].map expandQuant) = [expandQuant (upStr C)] from rfl]
  rw [expandQuant_of_noBrace (upStr C) (fun hm => (hplain _ hm).2.2.2 rfl)]
  exact testFrom_single_of_contains (upStr C) v
    (fun c hc => ⟨(hplain c hc).2.1, (hplain c hc).2.2.1⟩) hsub

/-! ## Helper lemmas: the construction invariant -/

theorem constructCore_debug_of_some (isDev : Bool) (store0 : Option Str) (p : ConsolerParams)
    (st : ConsolerState) (eff : List Effect) (v : Str)
    (hc : constructCore isDev store0 p = (st, eff))
    (hv : getLocalVerbose st.store = some v) :
    st.isDebugModeEnable = true := by
  rcases h0 : getLocalVerbose store0 with _ | w <;> rcases hdev : isDev with _ | _ <;>
    simp [hdev, constructCore, addDefaultValue, setLocalVerbose, h0] at hc <;>
    (obtain ⟨rfl, -⟩ := hc; simp_all)

theorem construct_debug_of_some (isDev : Bool) (store0 : Option Str) (p : ConsolerParams)
    (st : ConsolerState) (eff : List Effect) (v : Str)
    (hc : construct isDev store0 p = (.ok st, eff))
    (hv : getLocalVerbose st.store = some v) :
    st.isDebugModeEnable = true := by
  rcases hcc : constructCore isDev store0 p with ⟨st0, eff0⟩
  unfold construct at hc
  rw [hcc] at hc
  rcases htags : p.tags with _ | ts <;> rw [htags] at hc
  · simp only [Prod.mk.injEq, Except.ok.injEq] at hc
    obtain ⟨rfl, rfl⟩ := hc
    exact constructCore_debug_of_some _ _ _ _ _ _ hcc hv
  · rcases hg : getTagsObject ts with e | mp <;> simp only [hg, Prod.mk.injEq] at hc
    · exact absurd hc.1 (by simp)
    · obtain ⟨hst, rfl⟩ := hc
      rw [Except.ok.injEq] at hst
      subst hst
      exact constructCore_debug_of_some isDev store0 p st0 eff0 v hcc hv

/-! ## Claims -/

/-- C1, counterexample: the gate is a regex match, so substring presence does
not imply emission.  The category `A\x7b2\x7d` is present, verbatim and hence
as a case-insensitive substring, in the persisted verbose set of this
constructed facade (callback configured), yet dispatching it emits nothing:
`"A\x7b2\x7d".match("A\x7b2\x7d")` builds the regex `/A\x7b2\x7d/`, which
requires `AA` and therefore returns `null`, so there is no display-sink
emission and no callback invocation. -/
theorem claim_C1_substring_not_emitted_cex :
    construct false (some (strL "A\x7b2\x7d")) ⟨strL "pw", [strL "info"], none, true⟩
      = (.ok ⟨strL "pw", some (strL "A\x7b2\x7d"), false, true, [strL "A\x7b2\x7d"],
          none, true⟩,
         [Effect.triggerInstall, Effect.consoleLog (strL "verbose now accessable!")])
    ∧ containsSeq (upStr (strL "A\x7b2\x7d"))
        ((getLocalVerbose (some (strL "A\x7b2\x7d"))).getD []) = true
    ∧ taglog ⟨strL "pw", some (strL "A\x7b2\x7d"), false, true, [strL "A\x7b2\x7d"],
        none, true⟩ (strL "#aabbcc") (strL "A\x7b2\x7d") (strL "boom") = [] := by
  refine ⟨by rfl, by decide, by decide⟩

/-- C1, amended: for every category `C` whose uppercasing contains no
JavaScript regex metacharacter (`regexMeta`) — so the gate's
`String.prototype.match` call degenerates to a literal substring search —
presence of `C` (as a substring, case-insensitively) in the persisted
verbose set of a constructed facade means that dispatching `C` — through a
tag function (`_taglog`) or through `log`/`warn`/`error`/`success` —
produces exactly one display-sink emission (one collapsed group) and, when a
callback is configured, exactly one callback invocation with arguments
`(uppercase(C), message)` (and none otherwise).  For categories containing
metacharacters the gate applies them with their regex meaning, and substring
presence does not guarantee emission. -/
theorem claim_C1_present_dispatch (isDev : Bool) (store0 : Option Str) (p : ConsolerParams)
    (st : ConsolerState) (eff : List Effect) (v C color m : Str)
    (hc : construct isDev store0 p = (.ok st, eff))
    (hv : getLocalVerbose st.store = some v)
    (hplain : ∀ c ∈ upStr C, regexMeta c = false)
    (hsub : containsSeq (upStr C) v = true) :
    taglog st color C m
      = Effect.display color (strL "consoler:" ++ C) m ::
        (if st.hasCallback then [Effect.callback (upStr C) m] else [])
    ∧ (containsSeq (strL "INFO") v = true →
        log st m = Effect.display (strL "#03a9f4") (strL "consoler:INFO") m ::
          (if st.hasCallback then [Effect.callback (strL "INFO") m] else []))
    ∧ (containsSeq (strL "WARN") v = true →
        warn st m = Effect.display (strL "#ffc107") (strL "consoler:WARN") m ::
          (if st.hasCallback then [Effect.callback (strL "WARN") m] else []))
    ∧ (containsSeq (strL "ERROR") v = true →
        error st m = Effect.display (strL "#f55656") (strL "consoler:ERROR") m ::
          (if st.hasCallback then [Effect.callback (strL "ERROR") m] else []))
    ∧ (containsSeq (strL "SUCCESS") v = true →
        success st m = Effect.display (strL "#19c720") (strL "consoler:SUCCESS") m ::
          (if st.hasCallback then [Effect.callback (strL "SUCCESS") m] else [])) := by
  have hdbg := construct_debug_of_some isDev store0 p st eff v hc hv
  have hq : ∀ c ∈ upStr C, c ≠ '|' ∧ c ≠ '(' ∧ c ≠ ')' ∧ c ≠ '\x7b' := by
    intro c hcm
    have hm := hplain c hcm
    refine ⟨?_, ?_, ?_, ?_⟩ <;> rintro rfl <;> revert hm <;> decide
  have hgate := search_true_of_contains st.store v C hv hq hsub
  refine ⟨?_, fun hI => ?_, fun hW => ?_, fun hE => ?_, fun hS => ?_⟩
  · unfold taglog
    rw [hgate, hdbg]
    simp [logCore]
  · have hg2 : searchInLocalVerbose st.store (strL "INFO") = true := by
      simpa using search_true_of_contains st.store v (strL "INFO") hv (by decide) hI
    unfold log
    rw [hg2, hdbg]
    simp [logCore]
  · have hg2 : searchInLocalVerbose st.store (strL "WARN") = true := by
      simpa using search_true_of_contains st.store v (strL "WARN") hv (by decide) hW
    unfold warn
    rw [hg2, hdbg]
    simp [logCore]
  · have hg2 : searchInLocalVerbose st.store (strL "ERROR") = true := by
      simpa using search_true_of_contains st.store v (strL "ERROR") hv (by decide) hE
    unfold error
    rw [hg2, hdbg]
    simp [logCore]
  · have hg2 : searchInLocalVerbose st.store (strL "SUCCESS") = true := by
      simpa using search_true_of_contains st.store v (strL "SUCCESS") hv (by decide) hS
    unfold success
    rw [hg2, hdbg]
    simp [logCore]

/-- Witness for C1: the facade constructed over persisted `"ERROR"` (no
development environment, callback configured) dispatches the tag identifier
`"Error"` into exactly one collapsed group and one `("ERROR", message)`
callback. -/
theorem claim_C1_present_dispatch_witness :
    containsSeq (upStr (strL "Error")) (strL "ERROR") = true ∧
    taglog ⟨strL "pw", some (strL "ERROR"), false, true, [strL "ERROR"], none, true⟩
        (strL "#f55656") (strL "Error") (strL "boom")
      = [Effect.display (strL "#f55656") (strL "consoler:Error") (strL "boom"),
         Effect.callback (strL "ERROR") (strL "boom")] := by
  refine ⟨by decide, ?_⟩
  have h := claim_C1_present_dispatch false (some (strL "ERROR"))
    ⟨strL "pw", [strL "info", strL "warn"], none, true⟩
    ⟨strL "pw", some (strL "ERROR"), false, true, [strL "ERROR"], none, true⟩
    [Effect.triggerInstall, Effect.consoleLog (strL "verbose now accessable!")]
    (strL "ERROR") (strL "Error") (strL "#f55656") (strL "boom")
    (by rfl) (by rfl) (by decide) (by decide)
  simpa using h.1

/-- C2: when the gating check — `_searchInLocalVerbose` on the uppercased
category, i.e. `VerbosityStore.contains(C)` as the dispatch code performs
it — is false, dispatching produces no effects at all: no display-sink call
and no callback invocation, for tag dispatch and for each built-in. -/
theorem claim_C2_gated_off (st : ConsolerState) (C color m : Str) :
    (searchInLocalVerbose st.store (upStr C) = false → taglog st color C m = [])
    ∧ (searchInLocalVerbose st.store (strL "INFO") = false → log st m = [])
    ∧ (searchInLocalVerbose st.store (strL "WARN") = false → warn st m = [])
    ∧ (searchInLocalVerbose st.store (strL "ERROR") = false → error st m = [])
    ∧ (searchInLocalVerbose st.store (strL "SUCCESS") = false → success st m = []) := by
  refine ⟨fun h => ?_, fun h => ?_, fun h => ?_, fun h => ?_, fun h => ?_⟩ <;>
    simp [taglog, log, warn, error, success, h]

/-- Witness for C2: with no persisted state every gate is closed and
dispatch emits nothing. -/
theorem claim_C2_gated_off_witness :
    searchInLocalVerbose (none : Option Str) (upStr (strL "Error")) = false ∧
    taglog ⟨strL "pw", none, false, false, [strL "info"], none, true⟩
        (strL "#f55656") (strL "Error") (strL "x") = []
    ∧ log ⟨strL "pw", none, false, false, [strL "info"], none, true⟩ (strL "x") = [] := by
  refine ⟨by decide, ?_, ?_⟩
  · exact (claim_C2_gated_off ⟨strL "pw", none, false, false, [strL "info"], none, true⟩
      (strL "Error") (strL "#f55656") (strL "x")).1 (by decide)
  · exact (claim_C2_gated_off ⟨strL "pw", none, false, false, [strL "info"], none, true⟩
      (strL "Error") (strL "#f55656") (strL "x")).2.1 (by decide)

/-- C4: with persisted verbose set `"ERROR"`, `contains("ROR")` is true —
membership is decided by case-insensitive substring/regex match against the
stored string, even though `ROR` is not one of the stored comma-separated
tokens. -/
theorem claim_C4_substring_quirk :
    searchInLocalVerbose (some (strL "ERROR")) (strL "ROR") = true
    ∧ strL "ROR" ∉ splitOnChar ',' (upStr (strL "ERROR")) := by decide

/-- C7: `_autorizeDeveloper` returns `true` unconditionally and without
prompting in a development environment; otherwise it prompts exactly once,
logs the entered value, and returns `true` iff the entry equals the
configured password under exact string equality (a cancelled prompt fails). -/
theorem claim_C7_authorize (st : ConsolerState) (passInput : Option Str) :
    (st.isDevelopment = true → autorizeDeveloper st passInput = (true, []))
    ∧ (st.isDevelopment = false →
        ((autorizeDeveloper st passInput).1 = true ↔ passInput = some st.password)
        ∧ (autorizeDeveloper st passInput).2
            = [Effect.promptCall, Effect.consoleLog (passInput.getD [])]) := by
  refine ⟨fun h => ?_, fun h => ⟨?_, ?_⟩⟩ <;> simp [autorizeDeveloper, h]

/-- Witness for C7: development bypass, and the exact-match comparison in a
production environment with the right password. -/
theorem claim_C7_authorize_witness :
    autorizeDeveloper ⟨strL "pw", none, true, false, [], none, false⟩ none = (true, [])
    ∧ (autorizeDeveloper ⟨strL "pw", none, false, false, [], none, false⟩
        (some (strL "pw"))).1 = true := by
  refine ⟨(claim_C7_authorize _ none).1 rfl, ?_⟩
  exact ((claim_C7_authorize ⟨strL "pw", none, false, false, [], none, false⟩
    (some (strL "pw"))).2 rfl).1.mpr rfl

/-- C9: writing `["WARN","ERROR"]` through `_setLocalVerbose` and reading
back through `_getLocalVerbose` yields a string that, uppercased and split
on `,`, is `["WARN","ERROR"]`. -/
theorem claim_C9_roundtrip (st : ConsolerState)
    (h : st.verboseMode = [strL "WARN", strL "ERROR"]) :
    ∃ v, getLocalVerbose (setLocalVerbose st).1.store = some v
       ∧ splitOnChar ',' (upStr v) = [strL "WARN", strL "ERROR"] := by
  refine ⟨strL "WARN,ERROR", ?_, by decide⟩
  show getLocalVerbose (some (joinComma st.verboseMode)) = some (strL "WARN,ERROR")
  rw [h]; decide

/-- Witness for C9 at a concrete state. -/
theorem claim_C9_roundtrip_witness :
    ∃ v, getLocalVerbose
        (setLocalVerbose
          ⟨[], none, false, false, [strL "WARN", strL "ERROR"], none, false⟩).1.store
        = some v
      ∧ splitOnChar ',' (upStr v) = [strL "WARN", strL "ERROR"] :=
  claim_C9_roundtrip ⟨[], none, false, false, [strL "WARN", strL "ERROR"], none, false⟩ rfl

theorem validateTags_error (ts : List Tag) (t : Tag) (ht : t ∈ ts)
    (hbad : isHex t.color = false) :
    validateTags ts = .error (strL "Tag Color in not Hex") := by
  induction ts with
  | nil => cases ht
  | cons a rest ih =>
    rcases List.mem_cons.1 ht with rfl | hmem
    · simp [validateTags, hbad]
    · by_cases ha : isHex a.color
      · simp [validateTags, ha, ih hmem, Except.map]
      · simp [validateTags, ha]

theorem getTagsObject_error (ts : List Tag) (t : Tag) (ht : t ∈ ts)
    (hbad : isHex t.color = false) :
    getTagsObject ts = .error (strL "Tag Color in not Hex") := by
  unfold getTagsObject
  rw [validateTags_error ts t ht hbad]
  rfl

theorem success_effects_mem (st : ConsolerState) (m : Str) (e : Effect)
    (h : e ∈ success st m) :
    (∃ c i ms, e = Effect.display c i ms) ∨ ∃ cat ms, e = Effect.callback cat ms := by
  by_cases h1 : searchInLocalVerbose st.store (strL "SUCCESS") <;>
    by_cases h2 : st.isDebugModeEnable <;> by_cases h3 : st.hasCallback <;>
    simp [success, logCore, h1, h2, h3] at h <;>
    first
      | exact Or.inl ⟨_, _, _, h⟩
      | exact Or.inr ⟨_, _, h⟩
      | (rcases h with rfl | rfl
         · exact Or.inl ⟨_, _, _, rfl⟩
         · exact Or.inr ⟨_, _, rfl⟩)

theorem construct_eff (isDev : Bool) (store0 : Option Str) (p : ConsolerParams) :
    (construct isDev store0 p).2 = (constructCore isDev store0 p).2 := by
  rcases hcc : constructCore isDev store0 p with ⟨st0, eff0⟩
  rcases hts : p.tags with _ | ts
  · simp [construct, hcc, hts]
  · rcases hg : getTagsObject ts with e | mp <;> simp [construct, hcc, hts, hg]

theorem constructCore_seed_facts (store0 : Option Str) (p : ConsolerParams)
    (h0 : getLocalVerbose store0 = none) :
    (constructCore true store0 p).1.store = some (joinComma p.defaultDeveloperMode)
    ∧ (constructCore true store0 p).2
        = [Effect.triggerInstall, Effect.consoleLog (strL "verbose now accessable!"),
           Effect.storeWrite (joinComma p.defaultDeveloperMode)]
          ++ success (constructCore true store0 p).1 (strL "Now you can see : (") := by
  simp [constructCore, addDefaultValue, setLocalVerbose, h0]

theorem constructCore_noseed_facts (isDev : Bool) (store0 : Option Str) (p : ConsolerParams)
    (h : (getLocalVerbose store0).isSome = true ∨ isDev = false) :
    (constructCore isDev store0 p).1.store = store0
    ∧ ((constructCore isDev store0 p).2
        = [Effect.triggerInstall, Effect.consoleLog (strL "verbose now accessable!")]
          ++ success (constructCore isDev store0 p).1 (strL "Now you can see : (")
       ∨ (constructCore isDev store0 p).2
        = [Effect.triggerInstall, Effect.consoleLog (strL "verbose now accessable!")]) := by
  rcases h0 : getLocalVerbose store0 with _ | w
  · rcases h with h | h
    · rw [h0] at h; simp at h
    · subst h
      simp [constructCore, addDefaultValue, setLocalVerbose, h0]
  · rcases hdev : isDev with _ | _ <;>
      simp [constructCore, addDefaultValue, setLocalVerbose, h0]

theorem construct_ok_store (isDev : Bool) (store0 : Option Str) (p : ConsolerParams)
    (st st0 : ConsolerState) (eff eff0 : List Effect)
    (hcc : constructCore isDev store0 p = (st0, eff0))
    (hc : construct isDev store0 p = (.ok st, eff)) :
    st.store = st0.store := by
  unfold construct at hc
  rw [hcc] at hc
  rcases htags : p.tags with _ | ts <;> rw [htags] at hc
  · simp only [Prod.mk.injEq, Except.ok.injEq] at hc
    obtain ⟨rfl, rfl⟩ := hc; rfl
  · rcases hg : getTagsObject ts with e | mp <;> simp only [hg, Prod.mk.injEq] at hc
    · exact absurd hc.1 (by simp)
    · obtain ⟨hst, rfl⟩ := hc
      rw [Except.ok.injEq] at hst
      subst hst; rfl

theorem constructCore_no_prompt (isDev : Bool) (store0 : Option Str) (p : ConsolerParams) :
    Effect.promptCall ∉ (constructCore isDev store0 p).2 := by
  rcases h0 : getLocalVerbose store0 with _ | w <;> rcases hdev : isDev with _ | _ <;>
    simp [constructCore, addDefaultValue, setLocalVerbose, h0] <;>
    intro hmem <;>
    rcases success_effects_mem _ _ _ hmem with ⟨c, i, ms, h⟩ | ⟨cat, ms, h⟩ <;> simp at h

/-- C6: a tag list containing a tag whose colour fails the hex validation
makes the whole construction fail with `"Tag Color in not Hex"`; no facade
state is produced, so no tag dispatch function becomes callable and there is
no partially built registry.  (`isHex` itself is modelled from the spec — its
source file `src/consoler/helper` is not in the repository.) -/
theorem claim_C6_invalid_tag_aborts (isDev : Bool) (store0 : Option Str) (p : ConsolerParams)
    (ts : List Tag) (t : Tag)
    (hts : p.tags = some ts) (ht : t ∈ ts) (hbad : isHex t.color = false) :
    (construct isDev store0 p).1 = .error (strL "Tag Color in not Hex")
    ∧ ∀ st, (construct isDev store0 p).1 ≠ .ok st := by
  have herr := getTagsObject_error ts t ht hbad
  rcases hcc : constructCore isDev store0 p with ⟨st0, eff0⟩
  constructor
  · simp only [construct, hcc, hts, herr]
  · intro st
    simp only [construct, hcc, hts, herr]
    simp

/-- Witness for C6: registering the spec's `"not-a-color"` makes the
construction return the error. -/
theorem claim_C6_invalid_tag_aborts_witness :
    (construct false none
      ⟨strL "pw", [strL "info"], some [⟨strL "NET", strL "not-a-color"⟩], false⟩).1
      = .error (strL "Tag Color in not Hex") :=
  (claim_C6_invalid_tag_aborts false none
    ⟨strL "pw", [strL "info"], some [⟨strL "NET", strL "not-a-color"⟩], false⟩
    [⟨strL "NET", strL "not-a-color"⟩] ⟨strL "NET", strL "not-a-color"⟩
    rfl (List.mem_singleton.2 rfl) (by decide)).1

/-- C8: in a development environment with no persisted verbose set (in the
store's own sense: `_getLocalVerbose` returns nothing, which also covers an
empty stored string), construction writes `defaultDeveloperMode` comma-joined
to the persistence substrate; when a persisted set exists, or outside a
development environment, construction performs no store write; construction
never invokes an interactive prompt. -/
theorem claim_C8_autoseed (isDev : Bool) (store0 : Option Str) (p : ConsolerParams) :
    (getLocalVerbose store0 = none ∧ isDev = true →
        Effect.storeWrite (joinComma p.defaultDeveloperMode) ∈ (construct isDev store0 p).2
        ∧ ∀ st eff, construct isDev store0 p = (.ok st, eff) →
            st.store = some (joinComma p.defaultDeveloperMode))
    ∧ ((getLocalVerbose store0).isSome = true ∨ isDev = false →
        (∀ w, Effect.storeWrite w ∉ (construct isDev store0 p).2)
        ∧ ∀ st eff, construct isDev store0 p = (.ok st, eff) → st.store = store0)
    ∧ Effect.promptCall ∉ (construct isDev store0 p).2 := by
  refine ⟨?_, ?_, ?_⟩
  · rintro ⟨h0, rfl⟩
    have hf := constructCore_seed_facts store0 p h0
    constructor
    · rw [construct_eff, hf.2]
      simp
    · intro st eff hc
      rcases hcc : constructCore true store0 p with ⟨st0, eff0⟩
      have hs := construct_ok_store true store0 p st st0 eff eff0 hcc hc
      rw [hs]
      have h1 := hf.1
      rw [hcc] at h1
      exact h1
  · intro h
    have hf := constructCore_noseed_facts isDev store0 p h
    constructor
    · intro w hmem
      rw [construct_eff] at hmem
      rcases hf.2 with h2 | h2 <;> rw [h2] at hmem
      · rcases List.mem_append.1 hmem with hm | hm
        · simp at hm
        · rcases success_effects_mem _ _ _ hm with ⟨c, i, ms, hx⟩ | ⟨cat, ms, hx⟩ <;>
            simp at hx
      · simp at hmem
    · intro st eff hc
      rcases hcc : constructCore isDev store0 p with ⟨st0, eff0⟩
      have hs := construct_ok_store isDev store0 p st st0 eff eff0 hcc hc
      rw [hs]
      have h1 := hf.1
      rw [hcc] at h1
      exact h1
  · intro hmem
    rw [construct_eff] at hmem
    exact constructCore_no_prompt isDev store0 p hmem

/-- Witness for C8: the seed write happens in a development environment with
an empty substrate, and no write happens outside one. -/
theorem claim_C8_autoseed_witness :
    Effect.storeWrite (strL "info,warn")
      ∈ (construct true none ⟨strL "pw", [strL "info", strL "warn"], none, false⟩).2
    ∧ ∀ w, Effect.storeWrite w
      ∉ (construct false none ⟨strL "pw", [strL "info", strL "warn"], none, false⟩).2 := by
  constructor
  · exact ((claim_C8_autoseed true none
      ⟨strL "pw", [strL "info", strL "warn"], none, false⟩).1 ⟨rfl, rfl⟩).1
  · exact ((claim_C8_autoseed false none
      ⟨strL "pw", [strL "info", strL "warn"], none, false⟩).2.1 (Or.inr rfl)).1

/-! ## Helper lemmas: where store writes come from and what they contain -/

theorem globalMatchAuxF_chars (fuel : Nat) (alts : List Str) (s m : Str)
    (hm : m ∈ globalMatchAuxF fuel alts s) : ∀ c ∈ m, c ∈ s := by
  induction fuel generalizing s with
  | zero => simp [globalMatchAuxF] at hm
  | succ fuel ih =>
    rcases s with _ | ⟨c0, cs⟩
    · rcases htry : tryAlts alts [] with _ | n <;>
        simp [globalMatchAuxF, htry] at hm
      subst hm; simp
    · rcases htry : tryAlts alts (c0 :: cs) with _ | n
      · simp only [globalMatchAuxF, htry] at hm
        intro c hc
        exact List.mem_cons_of_mem _ (ih cs hm c hc)
      · rcases n with _ | n
        · simp only [globalMatchAuxF, htry] at hm
          rcases List.mem_cons.1 hm with rfl | hm
          · simp
          · intro c hc
            exact List.mem_cons_of_mem _ (ih cs hm c hc)
        · simp only [globalMatchAuxF, htry] at hm
          rcases List.mem_cons.1 hm with rfl | hm
          · intro c hc
            exact List.take_subset _ _ hc
          · intro c hc
            exact List.drop_subset _ _ (ih _ hm c hc)

theorem upChar_of_mem_upStr (s : Str) (c : Char) (h : c ∈ upStr s) : upChar c = c := by
  rcases List.mem_map.1 h with ⟨a, _, rfl⟩
  exact upChar_upChar a

theorem upStr_eq_self (l : Str) (h : ∀ c ∈ l, upChar c = c) : upStr l = l := by
  simp only [upStr]
  exact (List.map_congr_left fun c hc => h c hc).trans (List.map_id l)

theorem mem_joinComma (ws : List Str) (c : Char) (h : c ∈ joinComma ws) :
    c = ',' ∨ ∃ w ∈ ws, c ∈ w := by
  induction ws with
  | nil => simp [joinComma] at h
  | cons w ws ih =>
    rcases ws with _ | ⟨w2, ws2⟩
    · simp only [joinComma] at h
      exact Or.inr ⟨w, by simp, h⟩
    · simp only [joinComma] at h
      rcases List.mem_append.1 h with h | h
      · exact Or.inr ⟨w, by simp, h⟩
      · rcases List.mem_cons.1 h with rfl | h
        · exact Or.inl rfl
        · rcases ih h with h | ⟨x, hx, hcx⟩
          · exact Or.inl h
          · exact Or.inr ⟨x, List.mem_cons_of_mem _ hx, hcx⟩

theorem upStr_joinComma_fixed (ws : List Str) (h : ∀ w ∈ ws, ∀ c ∈ w, upChar c = c) :
    upStr (joinComma ws) = joinComma ws := by
  apply upStr_eq_self
  intro c hc
  rcases mem_joinComma ws c hc with rfl | ⟨w, hw, hcw⟩
  · rfl
  · exact h w hw c hcw

theorem autorize_effects (st : ConsolerState) (pi : Option Str) :
    (autorizeDeveloper st pi).2 = []
    ∨ (autorizeDeveloper st pi).2 = [Effect.promptCall, Effect.consoleLog (pi.getD [])] := by
  unfold autorizeDeveloper
  split <;> simp

theorem getVerboseMode_cases (st : ConsolerState) (input : Option Str) :
    getVerboseMode st input = (st, false, [Effect.promptCall, Effect.alertCall wrongVerboseMsg])
    ∨ ∃ i v vs, input = some i
        ∧ globalMatch (getRegexStr (st.tags.map objKeys)) (upStr i) = v :: vs
        ∧ getVerboseMode st input
            = ({st with verboseMode := v :: vs}, true, [Effect.promptCall]) := by
  unfold getVerboseMode
  rcases input with _ | i
  · left; rfl
  · rcases hg : globalMatch (getRegexStr (st.tags.map objKeys)) (upStr i)
      with _ | ⟨v, vs⟩
    · left; simp [hg]
    · right; exact ⟨i, v, vs, rfl, hg, by simp [hg]⟩

theorem flow_write_shape (st : ConsolerState) (passInput modeInput : Option Str) (w : Str)
    (hmem : Effect.storeWrite w ∈ (verboseFlow st passInput modeInput).2) :
    ∃ ms, ms ≠ [] ∧ w = joinComma ms ∧ upStr w = w := by
  rcases hA : autorizeDeveloper st passInput with ⟨ok, e1⟩
  have he1 : e1 = [] ∨ e1 = [Effect.promptCall, Effect.consoleLog (passInput.getD [])] := by
    have hh := autorize_effects st passInput
    rw [hA] at hh
    exact hh
  unfold verboseFlow at hmem
  rw [hA] at hmem
  rcases ok with _ | _
  · simp only [Bool.false_eq_true, if_false] at hmem
    rcases he1 with rfl | rfl <;> simp at hmem
  · simp only [if_true] at hmem
    rcases getVerboseMode_cases st modeInput with hG | ⟨i, v, vs, hi, hg, hG⟩ <;>
      rw [hG] at hmem
    · rcases he1 with rfl | rfl <;> simp at hmem
    · simp only [setVerboseAndReload, setLocalVerbose] at hmem
      have hw : w = joinComma (v :: vs) := by
        rcases he1 with rfl | rfl <;> simpa using hmem
      refine ⟨v :: vs, by simp, hw, ?_⟩
      subst hw
      apply upStr_joinComma_fixed
      intro x hx c hc
      have hxg : x ∈ globalMatchAuxF ((upStr i).length + 1)
          ((splitOnChar '|' (getRegexStr (st.tags.map objKeys))).map expandQuant)
          (upStr i) := by
        have hx2 : x ∈ globalMatch (getRegexStr (st.tags.map objKeys))
            (upStr i) := by
          rw [hg]
          exact hx
        exact hx2
      exact upChar_of_mem_upStr _ _ (globalMatchAuxF_chars ((upStr i).length + 1)
        ((splitOnChar '|' (getRegexStr (st.tags.map objKeys))).map expandQuant)
        (upStr i) x hxg c hc)

theorem construct_write_value (isDev : Bool) (store0 : Option Str) (p : ConsolerParams)
    (w : Str) (hmem : Effect.storeWrite w ∈ (construct isDev store0 p).2) :
    w = joinComma p.defaultDeveloperMode := by
  rw [construct_eff] at hmem
  rcases h0 : getLocalVerbose store0 with _ | x
  · rcases hdev : isDev with _ | _
    · subst hdev
      have hf := constructCore_noseed_facts false store0 p (Or.inr rfl)
      rcases hf.2 with h2 | h2 <;> rw [h2] at hmem
      · rcases List.mem_append.1 hmem with hm | hm
        · simp at hm
        · rcases success_effects_mem _ _ _ hm with ⟨_, _, _, hx⟩ | ⟨_, _, hx⟩ <;> simp at hx
      · simp at hmem
    · subst hdev
      have hf := constructCore_seed_facts store0 p h0
      rw [hf.2] at hmem
      rcases List.mem_append.1 hmem with hm | hm
      · simpa using hm
      · rcases success_effects_mem _ _ _ hm with ⟨_, _, _, hx⟩ | ⟨_, _, hx⟩ <;> simp at hx
  · have hf := constructCore_noseed_facts isDev store0 p (Or.inl (by rw [h0]; rfl))
    rcases hf.2 with h2 | h2 <;> rw [h2] at hmem
    · rcases List.mem_append.1 hmem with hm | hm
      · simp at hm
      · rcases success_effects_mem _ _ _ hm with ⟨_, _, _, hx⟩ | ⟨_, _, hx⟩ <;> simp at hx
    · simp at hmem

/-- C5, counterexample: the development-environment auto-seed with the
lowercase `defaultDeveloperMode` list `["info","warn"]` persists the string
`"info,warn"`, which is not uppercase — so the persisted representation after
this write is not an uppercase string as the claim requires. -/
theorem claim_C5_uppercase_cex :
    Effect.storeWrite (strL "info,warn")
      ∈ (construct true none ⟨strL "pw", [strL "info", strL "warn"], none, false⟩).2
    ∧ upStr (strL "info,warn") ≠ strL "info,warn" := by decide

/-- C5, amended: every store write performed by construction (the auto-seed)
persists the `defaultDeveloperMode` tokens comma-joined verbatim — without
uppercasing — while every store write performed by the configuration flow
(the commit) persists a comma-joined, uppercase (uppercase-fixed) string,
because the committed tokens are extracted from the uppercased operator
input; uppercase normalisation otherwise happens on read, in
`_getLocalVerbose`. -/
theorem claim_C5_persist_format_amended :
    (∀ (isDev : Bool) (store0 : Option Str) (p : ConsolerParams) (w : Str),
        Effect.storeWrite w ∈ (construct isDev store0 p).2 →
        w = joinComma p.defaultDeveloperMode)
    ∧ (∀ (st : ConsolerState) (passInput modeInput : Option Str) (w : Str),
        Effect.storeWrite w ∈ (verboseFlow st passInput modeInput).2 →
        ∃ ms, ms ≠ [] ∧ w = joinComma ms ∧ upStr w = w) :=
  ⟨construct_write_value, flow_write_shape⟩

/-- Witness for the amended C5: the concrete seed write `"info,warn"` and the
concrete commit write `"WARN,INFO"` (from operator input `"warn, info"`). -/
theorem claim_C5_persist_format_amended_witness :
    strL "info,warn" = joinComma [strL "info", strL "warn"]
    ∧ ∃ ms, ms ≠ [] ∧ strL "WARN,INFO" = joinComma ms
        ∧ upStr (strL "WARN,INFO") = strL "WARN,INFO" := by
  constructor
  · exact claim_C5_persist_format_amended.1 true none
      ⟨strL "pw", [strL "info", strL "warn"], none, false⟩ (strL "info,warn") (by decide)
  · exact claim_C5_persist_format_amended.2
      ⟨strL "pw", some (strL "ERROR"), false, true, [strL "ERROR"], none, true⟩
      (some (strL "pw")) (some (strL "warn, info")) (strL "WARN,INFO") (by decide)

/-! ## Helper lemmas: characterising the constructed regex string -/

theorem plainChar_not_special (c : Char) (h : plainChar c = true) :
    c ≠ '|' ∧ c ≠ ',' ∧ c ≠ '(' ∧ c ≠ ')' := by
  refine ⟨?_, ?_, ?_, ?_⟩ <;> rintro rfl <;> revert h <;> decide

theorem upStr_plain (n : Str) (h : ∀ c ∈ n, plainChar c = true) :
    ∀ c ∈ upStr n, plainChar c = true := by
  intro c hc
  rcases List.mem_map.1 hc with ⟨a, ha, rfl⟩
  exact plainChar_upChar a (h a ha)

theorem noBar_plainAlt (n : Str) (h : ∀ c ∈ n, plainChar c = true) :
    ∀ c ∈ plainAlt n, c ≠ '|' := by
  intro c hc
  simp only [plainAlt, List.mem_cons, List.mem_append] at hc
  rcases hc with (rfl | hc) | hc
  · decide
  · exact (plainChar_not_special c (upStr_plain n h c hc)).1
  · simp [strL] at hc; subst hc; decide

theorem noComma_plainAlt (n : Str) (h : ∀ c ∈ n, plainChar c = true) :
    ∀ c ∈ plainAlt n, c ≠ ',' := by
  intro c hc
  simp only [plainAlt, List.mem_cons, List.mem_append] at hc
  rcases hc with (rfl | hc) | hc
  · decide
  · exact (plainChar_not_special c (upStr_plain n h c hc)).2.1
  · simp [strL] at hc; subst hc; decide

theorem noBar_commaAlt (n : Str) (h : ∀ c ∈ n, plainChar c = true) :
    ∀ c ∈ commaAlt n, c ≠ '|' := by
  intro c hc
  simp only [commaAlt, List.mem_append] at hc
  rcases hc with hc | hc
  · exact noBar_plainAlt n h c hc
  · simp [strL] at hc; subst hc; decide

theorem splitOnChar_static_bar (t : Str) :
    splitOnChar '|' (staticRegStr ++ '|' :: t) = builtinAlts ++ splitOnChar '|' t := rfl

theorem joinComma_cons (x : Str) (y : Str) (ys : List Str) :
    joinComma (x :: y :: ys) = x ++ ',' :: joinComma (y :: ys) := rfl

theorem replaceFirstComma_append (a r : Str) (h : ∀ c ∈ a, c ≠ ',') :
    replaceFirstComma (a ++ r) = a ++ replaceFirstComma r := by
  induction a with
  | nil => rfl
  | cons c cs ih =>
    have hc := h c (List.mem_cons_self _ _)
    simp [replaceFirstComma, hc, ih (fun d hd => h d (List.mem_cons_of_mem _ hd))]

theorem joinComma_pieces (n : Str) (rest : List Str) :
    joinComma ((n :: rest).map pieceStr) = '|' :: chainStr (n :: rest) := by
  induction rest generalizing n with
  | nil => rfl
  | cons m more ih =>
    simp only [List.map_cons] at ih ⊢
    rw [joinComma_cons (pieceStr n) (pieceStr m) (more.map pieceStr)]
    rw [ih m]
    simp [pieceStr, chainStr]

theorem chainStr_cons (n m : Str) (more : List Str) :
    chainStr (n :: m :: more) = commaAlt n ++ '|' :: chainStr (m :: more) := by
  simp [chainStr, commaAlt, strL]

theorem splitOnChar_chainStr (ns : List Str) (h : ∀ n ∈ ns, goodName n) (hne : ns ≠ []) :
    splitOnChar '|' (chainStr ns) = tagAltsMid ns := by
  induction ns with
  | nil => exact absurd rfl hne
  | cons n rest ih =>
    rcases rest with _ | ⟨m, more⟩
    · simp only [chainStr, tagAltsMid]
      exact splitOnChar_of_noSep '|' _ (noBar_plainAlt n (h n (by simp)).2)
    · rw [chainStr_cons]
      rw [splitOnChar_append_sep '|' (commaAlt n) _ (noBar_commaAlt n (h n (by simp)).2)]
      rw [ih (fun x hx => h x (List.mem_cons_of_mem _ hx)) (by simp)]
      rfl

theorem getRegexStr_alts (names : List Str) (h : ∀ n ∈ names, goodName n) :
    splitOnChar '|' (getRegexStr (some names)) = builtinAlts ++ tagAlts names := by
  rcases names with _ | ⟨n, rest⟩
  · show splitOnChar '|' (staticRegStr ++ replaceFirstComma (joinComma [])) = _
    simp [joinComma, replaceFirstComma, tagAlts]
    decide
  · have hgn := h n (by simp)
    rcases rest with _ | ⟨m, more⟩
    · show splitOnChar '|' (staticRegStr ++ replaceFirstComma (joinComma [pieceStr n])) = _
      have h2 : replaceFirstComma (pieceStr n) = pieceStr n := by
        have hr := replaceFirstComma_append (pieceStr n) [] ?_
        · simpa [replaceFirstComma] using hr
        · intro c hc
          simp only [pieceStr, List.mem_cons] at hc
          rcases hc with rfl | hc
          · decide
          · exact noComma_plainAlt n hgn.2 c hc
      rw [show joinComma [pieceStr n] = pieceStr n from rfl, h2]
      rw [show staticRegStr ++ pieceStr n = staticRegStr ++ '|' :: plainAlt n from rfl]
      rw [splitOnChar_static_bar]
      rw [splitOnChar_of_noSep '|' _ (noBar_plainAlt n hgn.2)]
      rfl
    · show splitOnChar '|'
        (staticRegStr ++ replaceFirstComma (joinComma ((n :: m :: more).map pieceStr))) = _
      rw [joinComma_pieces n (m :: more)]
      rw [show ('|' :: chainStr (n :: m :: more))
          = '|' :: (plainAlt n ++ ',' :: '|' :: chainStr (m :: more)) from by
        rw [chainStr_cons]; simp [commaAlt, strL]]
      have hnc : ∀ c ∈ ('|' :: plainAlt n), c ≠ ',' := by
        intro c hc
        rcases List.mem_cons.1 hc with rfl | hc
        · decide
        · exact noComma_plainAlt n hgn.2 c hc
      rw [show ('|' :: (plainAlt n ++ ',' :: '|' :: chainStr (m :: more)))
          = ('|' :: plainAlt n) ++ ',' :: ('|' :: chainStr (m :: more)) from by simp]
      rw [replaceFirstComma_append _ _ hnc]
      rw [show replaceFirstComma (',' :: ('|' :: chainStr (m :: more)))
          = '|' :: chainStr (m :: more) from by simp [replaceFirstComma]]
      rw [show staticRegStr ++ (('|' :: plainAlt n) ++ '|' :: chainStr (m :: more))
          = staticRegStr ++ '|' :: (plainAlt n ++ '|' :: chainStr (m :: more)) from by simp]
      rw [splitOnChar_static_bar]
      rw [splitOnChar_append_sep '|' (plainAlt n) _ (noBar_plainAlt n hgn.2)]
      rw [splitOnChar_chainStr (m :: more) (fun x hx => h x (List.mem_cons_of_mem _ hx))
        (by simp)]
      rfl

theorem noBrace_plainAlt (n : Str) (h : ∀ c ∈ n, plainChar c = true) :
    '\x7b' ∉ plainAlt n := by
  intro hc
  simp only [plainAlt, List.mem_cons, List.mem_append] at hc
  rcases hc with (hc | hc) | hc
  · exact absurd hc (by decide)
  · exact absurd (upStr_plain n h _ hc) (by decide)
  · simp [strL] at hc

theorem noBrace_commaAlt (n : Str) (h : ∀ c ∈ n, plainChar c = true) :
    '\x7b' ∉ commaAlt n := by
  intro hc
  simp only [commaAlt, List.mem_append] at hc
  rcases hc with hc | hc
  · exact noBrace_plainAlt n h hc
  · simp [strL] at hc

theorem mem_tagAltsMid (ns : List Str) (a : Str) (ha : a ∈ tagAltsMid ns) :
    ∃ n ∈ ns, a = plainAlt n ∨ a = commaAlt n := by
  induction ns with
  | nil => cases ha
  | cons n rest ih =>
    rcases rest with _ | ⟨m, more⟩
    · simp only [tagAltsMid, List.mem_singleton] at ha
      exact ⟨n, by simp, Or.inl ha⟩
    · simp only [tagAltsMid] at ha
      rcases List.mem_cons.1 ha with rfl | ha
      · exact ⟨n, by simp, Or.inr rfl⟩
      · rcases ih ha with ⟨x, hx, ho⟩
        exact ⟨x, List.mem_cons_of_mem _ hx, ho⟩

theorem mem_tagAlts (ns : List Str) (a : Str) (ha : a ∈ tagAlts ns) :
    ∃ n ∈ ns, a = plainAlt n ∨ a = commaAlt n := by
  rcases ns with _ | ⟨n, rest⟩
  · cases ha
  · simp only [tagAlts] at ha
    rcases List.mem_cons.1 ha with rfl | ha
    · exact ⟨n, by simp, Or.inl rfl⟩
    · rcases mem_tagAltsMid rest a ha with ⟨x, hx, ho⟩
      exact ⟨x, List.mem_cons_of_mem _ hx, ho⟩

theorem getVerboseMode_some (st : ConsolerState) (i : Str) :
    getVerboseMode st (some i)
      = match globalMatch (getRegexStr (st.tags.map objKeys)) (upStr i) with
        | [] => (st, false, [Effect.promptCall, Effect.alertCall wrongVerboseMsg])
        | v :: vs => ({st with verboseMode := v :: vs}, true, [Effect.promptCall]) := rfl

/-- C3, counterexample: with the three registered tags `AAA`, `BBB`, `CCC`
and operator input `"bbb"`, the alternation described by the claim (built-ins
plus every registered tag name) extracts `["BBB"]` — a non-empty match set
that the claim says is committed — but the regex actually built by
`_getRegex` (array `toString` with only the first comma removed leaves the
alternative `(BBB),`) matches nothing, so `_getVerboseMode` alerts
`"Wrong Verbose Mode!"` and leaves the state unchanged. -/
theorem claim_C3_extraction_cex :
    specExtractCategories [strL "AAA", strL "BBB", strL "CCC"] (strL "bbb") = [strL "BBB"]
    ∧ globalMatch (getRegexStr (some [strL "AAA", strL "BBB", strL "CCC"]))
        (upStr (strL "bbb")) = []
    ∧ getVerboseMode
        ⟨strL "pw", some (strL "ERROR"), true, true, [strL "ERROR"],
         some [(strL "AAA", strL "#aaa"), (strL "BBB", strL "#bbb"), (strL "CCC", strL "#ccc")],
         false⟩
        (some (strL "bbb"))
      = (⟨strL "pw", some (strL "ERROR"), true, true, [strL "ERROR"],
          some [(strL "AAA", strL "#aaa"), (strL "BBB", strL "#bbb"), (strL "CCC", strL "#ccc")],
          false⟩, false, [Effect.promptCall, Effect.alertCall wrongVerboseMsg]) := by decide

/-- C3, amended: `_getVerboseMode` uppercases the operator input and extracts
all substrings matching the global regex whose alternatives are the built-ins
`(INFO)|(WARN)|(SUCCESS)|(ERROR)` followed by the registry's key list — the
`Object.keys` order of the last-write-wins tag object: array-index-like
names first in ascending numeric order, then the remaining names in
insertion order, duplicates collapsed — uppercased, unescaped, with the
comma artefact of `toString().replace(",","")`: the first and last key are
clean alternatives, while every middle key carries a mandatory trailing
comma (`tagAlts`).  A cancelled prompt or an empty match set yields the
`"Wrong Verbose Mode!"` alert with the state unchanged; a non-empty match
set is committed into `verboseMode` and, through the flow, persisted
comma-joined via `_setLocalVerbose` followed by a reload. -/
theorem claim_C3_prompting_amended (names : List Str) (st : ConsolerState)
    (tm : List (Str × Str)) (passInput modeInput : Option Str)
    (hgood : ∀ n ∈ names, goodName n)
    (htags : st.tags = some tm) (hnames : objKeys tm = names) :
    splitOnChar '|' (getRegexStr (some names)) = builtinAlts ++ tagAlts names
    ∧ (modeInput = none →
        getVerboseMode st modeInput
          = (st, false, [Effect.promptCall, Effect.alertCall wrongVerboseMsg]))
    ∧ ∀ i, modeInput = some i →
        (globalMatchA (builtinAlts ++ tagAlts names) (upStr i) = [] →
          getVerboseMode st modeInput
            = (st, false, [Effect.promptCall, Effect.alertCall wrongVerboseMsg]))
        ∧ ∀ v vs, globalMatchA (builtinAlts ++ tagAlts names) (upStr i) = v :: vs →
            getVerboseMode st modeInput
              = ({st with verboseMode := v :: vs}, true, [Effect.promptCall])
            ∧ (st.isDevelopment = true →
                (verboseFlow st passInput modeInput).1.store = some (joinComma (v :: vs))
                ∧ Effect.storeWrite (joinComma (v :: vs))
                    ∈ (verboseFlow st passInput modeInput).2
                ∧ Effect.reload ∈ (verboseFlow st passInput modeInput).2) := by
  have halts := getRegexStr_alts names hgood
  have hnb : ∀ a ∈ builtinAlts ++ tagAlts names, '\x7b' ∉ a := by
    intro a ha
    rcases List.mem_append.1 ha with ha | ha
    · simp only [builtinAlts, List.mem_cons, List.not_mem_nil, or_false] at ha
      rcases ha with rfl | rfl | rfl | rfl <;> decide
    · rcases mem_tagAlts names a ha with ⟨n, hn, rfl | rfl⟩
      · exact noBrace_plainAlt n (hgood n hn).2
      · exact noBrace_commaAlt n (hgood n hn).2
  have hmatch : ∀ i : Str,
      globalMatch (getRegexStr (st.tags.map objKeys)) (upStr i)
        = globalMatchA (builtinAlts ++ tagAlts names) (upStr i) := by
    intro i
    rw [htags]
    show globalMatch (getRegexStr (some (objKeys tm))) (upStr i) = _
    rw [hnames]
    unfold globalMatch
    rw [halts, map_expandQuant_eq_self _ hnb]
  refine ⟨halts, ?_, ?_⟩
  · rintro rfl
    rfl
  · rintro i rfl
    constructor
    · intro hnil
      rw [getVerboseMode_some, hmatch i, hnil]
    · intro v vs hcons
      have hmode : getVerboseMode st (some i)
          = ({st with verboseMode := v :: vs}, true, [Effect.promptCall]) := by
        rw [getVerboseMode_some, hmatch i, hcons]
      refine ⟨hmode, fun hdev => ?_⟩
      unfold verboseFlow
      rw [show autorizeDeveloper st passInput = (true, []) from by
        simp [autorizeDeveloper, hdev]]
      rw [hmode]
      simp [setVerboseAndReload, setLocalVerbose]

/-- Witness for the amended C3: with two registered tags `AAA`, `BBB` the
alternation is clean, and input `"bbb"` commits `["BBB"]`. -/
theorem claim_C3_prompting_amended_witness :
    getVerboseMode
      ⟨strL "pw", some (strL "ERROR"), true, true, [strL "ERROR"],
        some [(strL "AAA", strL "#aaa"), (strL "BBB", strL "#bbb")], false⟩
      (some (strL "bbb"))
      = (⟨strL "pw", some (strL "ERROR"), true, true, [strL "BBB"],
          some [(strL "AAA", strL "#aaa"), (strL "BBB", strL "#bbb")], false⟩,
         true, [Effect.promptCall]) := by
  have h := claim_C3_prompting_amended [strL "AAA", strL "BBB"]
    ⟨strL "pw", some (strL "ERROR"), true, true, [strL "ERROR"],
      some [(strL "AAA", strL "#aaa"), (strL "BBB", strL "#bbb")], false⟩
    [(strL "AAA", strL "#aaa"), (strL "BBB", strL "#bbb")]
    none (some (strL "bbb"))
    (by decide) rfl rfl
  exact ((h.2.2 (strL "bbb") rfl).2 (strL "BBB") [] (by decide)).1

end Consoler
